import Mathlib

/-!
Shallow embedding of Snippet Arsenal (src/main.py): a SQLite-backed snippet
store with a Tk editor session.

Modelling choices:
- SQL `TEXT` values are Lean `String`s; the nullable `notes` column is
  `Option String` (the `IFNULL(notes, '')` in queries becomes `Option.getD`).
- `CURRENT_TIMESTAMP` is a `Nat` logical clock passed explicitly to every
  write; `ORDER BY updated_at DESC` on the timestamp text is order on `Nat`
  (SQLite timestamp strings compare lexicographically, which agrees with
  chronological order), realised by a stable insertion sort.
- SQLite `LIKE` (default, no ESCAPE): `%` matches any run of characters,
  `_` any single character, other characters compare ASCII-case-insensitively.
- The `snippets` table is a list of rows plus the AUTOINCREMENT counter;
  `lastrowid` is the id the insert just assigned.
- Python string helpers (`strip`, `split(",")`, `",".join`) are defined on
  `List Char` and wrapped to `String`.
-/

/-- Whitespace stripped by Python `str.strip()` (the ASCII cases). -/
def pyIsSpace (c : Char) : Bool :=
  c = ' ' || c = '\t' || c = '\n' || c = '\r' || c = '\x0b' || c = '\x0c'

/-- Python `str.strip()` on character lists: drop whitespace from both ends. -/
def stripChars (l : List Char) : List Char :=
  (((l.dropWhile pyIsSpace).reverse).dropWhile pyIsSpace).reverse

/-- Python `str.strip()`. -/
def pyStrip (s : String) : String := String.mk (stripChars s.data)

/-- Python `s.split(",")`: splitting on every comma, keeping empty segments
(`"".split(",") = [""]`). -/
def splitComma : List Char → List (List Char)
  | [] => [[]]
  | c :: rest =>
    let r := splitComma rest
    if c = ',' then [] :: r
    else (c :: r.headI) :: r.tail

/-- Python `",".join(parts)`. -/
def joinComma : List (List Char) → List Char
  | [] => []
  | [p] => p
  | p :: q :: rest => p ++ ',' :: joinComma (q :: rest)

/-- The tag normalisation of `save_snippet` (main.py line 328):
`",".join(t.strip() for t in tags.split(",") if t.strip())`. -/
def normTagsChars (l : List Char) : List Char :=
  joinComma (((splitComma l).map stripChars).filter (fun p => p ≠ []))

/-- Tag normalisation on `String`s. -/
def normalizeTags (s : String) : String := String.mk (normTagsChars s.data)

/-- SQLite's ASCII-only case folding used by default `LIKE`. -/
def asciiLower (c : Char) : Char :=
  if 'A' ≤ c ∧ c ≤ 'Z' then Char.ofNat (c.toNat + 32) else c

/-- SQLite `LIKE` pattern matching (default behaviour, no ESCAPE clause):
`%` matches any run of zero or more characters (any suffix split), `_`
matches exactly one character, everything else compares after ASCII case
folding. -/
def likeMatch : List Char → List Char → Bool
  | [], s => s.isEmpty
  | a :: p, s =>
    if a = '%' then s.tails.any (fun t => likeMatch p t)
    else
      match s with
      | [] => false
      | c :: s' => (a == '_' || asciiLower a == asciiLower c) && likeMatch p s'

/-- The pattern `db_search` builds: `f"%{query.strip()}%"`. -/
def likePattern (query : String) : List Char :=
  '%' :: (stripChars query.data ++ ['%'])

/-- A row of the `snippets` table (§ schema in `init_db`). -/
structure Snippet where
  id : Nat
  title : String
  language : String
  tags : String
  status : String
  code : String
  notes : Option String
  created_at : Nat
  updated_at : Nat
deriving DecidableEq

/-- The summary row `db_search` selects: id, title, language, tags, status. -/
structure SummaryRow where
  id : Nat
  title : String
  language : String
  tags : String
  status : String
deriving DecidableEq

/-- The full row `db_get` selects, with `IFNULL(notes, '')` applied. -/
structure FullRow where
  id : Nat
  title : String
  language : String
  tags : String
  status : String
  code : String
  notes : String
deriving DecidableEq

/-- The `snippets` table plus its AUTOINCREMENT counter. -/
structure Store where
  rows : List Snippet
  nextId : Nat
deriving DecidableEq

/-- `IFNULL(notes, '')`. -/
def ifnull (n : Option String) : String := n.getD ""

/-- The WHERE clause of `db_search`: the keyword pattern against title,
language, tags, code and `IFNULL(notes, '')`. -/
def rowMatches (pat : List Char) (r : Snippet) : Bool :=
  likeMatch pat r.title.data || likeMatch pat r.language.data ||
  likeMatch pat r.tags.data || likeMatch pat r.code.data ||
  likeMatch pat (ifnull r.notes).data

/-- `ORDER BY updated_at DESC`: a row sorts before another when its
`updated_at` is at least as large. -/
def updatedDesc (a b : Snippet) : Prop := b.updated_at ≤ a.updated_at

instance : DecidableRel updatedDesc := fun a b =>
  inferInstanceAs (Decidable (b.updated_at ≤ a.updated_at))

instance : IsTotal Snippet updatedDesc :=
  ⟨fun a b => Nat.le_total b.updated_at a.updated_at⟩

instance : IsTrans Snippet updatedDesc :=
  ⟨fun _ _ _ h1 h2 => Nat.le_trans h2 h1⟩

/-- Projection to the columns of the search result. -/
def summaryOf (r : Snippet) : SummaryRow :=
  ⟨r.id, r.title, r.language, r.tags, r.status⟩

/-- `db_search` (main.py 52-73): filter by the LIKE pattern over five
fields, order by `updated_at` descending, `LIMIT 200`, project the summary
columns. -/
def db_search (st : Store) (query : String) : List SummaryRow :=
  ((List.insertionSort updatedDesc
      (st.rows.filter (rowMatches (likePattern query)))).take 200).map summaryOf

/-- `db_get` (main.py 76-89): fetch one row by primary key, `IFNULL` on
notes; `fetchone` on no row is `none`. -/
def db_get (st : Store) (snippet_id : Nat) : Option FullRow :=
  (st.rows.find? (fun r => r.id == snippet_id)).map
    (fun r => ⟨r.id, r.title, r.language, r.tags, r.status, r.code, ifnull r.notes⟩)

/-- `db_insert` (main.py 92-104): append a fresh row, both timestamps
stamped to the current time, and return `lastrowid`. -/
def db_insert (st : Store) (now : Nat)
    (title language tags status code notes : String) : Store × Nat :=
  (⟨st.rows ++ [⟨st.nextId, title, language, tags, status, code, some notes, now, now⟩],
    st.nextId + 1⟩, st.nextId)

/-- `db_update` (main.py 107-125): full replace of the editable fields of
the row with the given id, refreshing `updated_at`; rows with other ids are
untouched, and a missing id makes the whole statement a no-op. -/
def db_update (st : Store) (now : Nat) (snippet_id : Nat)
    (title language tags status code notes : String) : Store :=
  ⟨st.rows.map (fun r =>
      if r.id = snippet_id then
        { r with title := title, language := language, tags := tags,
                 status := status, code := code, notes := some notes,
                 updated_at := now }
      else r),
   st.nextId⟩

/-- `db_delete` (main.py 128-135): remove the row with the given id. -/
def db_delete (st : Store) (snippet_id : Nat) : Store :=
  ⟨st.rows.filter (fun r => r.id != snippet_id), st.nextId⟩

/-- The editor session: `selected_id` plus the working copies of the form
fields (`title_var`, `lang_var`, `tags_var`, `status_var`, the code text and
the notes text). -/
structure Session where
  selected_id : Option Nat
  title_var : String
  lang_var : String
  tags_var : String
  status_var : String
  code_text : String
  notes_text : String
deriving DecidableEq

/-- `new_snippet` (main.py 305-313): from any state, clear the selection,
empty title/tags/code/notes and reset language to "py", status to "draft". -/
def new_snippet (_s : Session) : Session :=
  ⟨none, "", "py", "", "draft", "", ""⟩

/-- `on_select` (main.py 284-303): load the chosen row into the editor.
When `db_get` returns no row, the Python indexes into `None` and the
handler dies before writing any field; that failure is `none`. -/
def on_select (_s : Session) (st : Store) (snippet_id : Nat) : Option Session :=
  match db_get st snippet_id with
  | none => none
  | some row =>
    some ⟨some row.id, row.title, row.language, row.tags, row.status,
          row.code, row.notes⟩

/-- Outcome of a save: the session and store afterwards, and whether the
validation error box was shown instead of writing. -/
structure SaveOutcome where
  sess : Session
  st : Store
  validationError : Bool
deriving DecidableEq

/-- `save_snippet` (main.py 315-336): strip all six fields, reject when
title, language, tags or code is empty, normalise tags, then insert (no
selection, adopting the new id) or update (current selection). -/
def save_snippet (s : Session) (st : Store) (now : Nat) : SaveOutcome :=
  let title := pyStrip s.title_var
  let language := pyStrip s.lang_var
  let tags0 := pyStrip s.tags_var
  let status := pyStrip s.status_var
  let code := pyStrip s.code_text
  let notes := pyStrip s.notes_text
  if title = "" ∨ language = "" ∨ tags0 = "" ∨ code = "" then
    ⟨s, st, true⟩
  else
    let tags := normalizeTags tags0
    match s.selected_id with
    | none =>
      let ins := db_insert st now title language tags status code notes
      ⟨{ s with selected_id := some ins.2 }, ins.1, false⟩
    | some i =>
      ⟨s, db_update st now i title language tags status code notes, false⟩

/-- Case-insensitive substring, the relation the spec's search property is
stated with: some decomposition of the haystack has a middle segment that
agrees with the needle up to ASCII case. -/
def ciSubstring (needle hay : String) : Prop :=
  ∃ pre mid suf : List Char,
    hay.data = pre ++ mid ++ suf ∧
    mid.map asciiLower = needle.data.map asciiLower

/-- Sample record for witnesses: the spec §8 scenario snippet. -/
def wRec : Snippet :=
  ⟨1, "Bin Search", "py", "algo,search", "draft", "def f(): pass", some "", 0, 0⟩

/-- Sample one-record store. -/
def wStore : Store := ⟨[wRec], 2⟩

/-- Record whose fields contain neither a percent sign nor an underscore. -/
def wRec2 : Snippet := ⟨1, "a", "b", "c", "d", "e", some "", 0, 0⟩

/-- Store holding only `wRec2`. -/
def wStore2 : Store := ⟨[wRec2], 2⟩

/-- Two records with distinct `updated_at`, for the ordering witness. -/
def wRecA : Snippet := ⟨1, "t1", "py", "x", "draft", "c1", some "", 0, 1⟩

/-- Second record, more recently updated, and with NULL notes. -/
def wRecB : Snippet := ⟨2, "t2", "py", "y", "draft", "c2", none, 0, 5⟩

/-- Two-record store for the ordering witness. -/
def wStore6 : Store := ⟨[wRecA, wRecB], 3⟩

/-- One-record store holding `wRecA`, for the update witness. -/
def wStore5 : Store := ⟨[wRecA], 2⟩

/-- Session whose title is blank after stripping. -/
def wSessEmptyTitle : Session := ⟨none, "  ", "py", "a", "draft", "x", ""⟩

/-- Session that passes validation, in new-snippet mode. -/
def wSessOk : Session := ⟨none, " T ", "py", " a, b ", "draft", " c ", ""⟩

/-- Session with an arbitrary dirty state, for the `new_snippet` claims. -/
def wSess9 : Session := ⟨some 5, "t", "hs", "g", "prod", "k", "n"⟩

example : pyStrip "  a b  " = "a b" := by decide
example : normalizeTags " a, b,, c " = "a,b,c" := by decide
example : likeMatch (likePattern "ALGO") "my algo,search".data = true := by decide
example : likeMatch (likePattern "zzz") "my algo".data = false := by decide
example : likeMatch (likePattern "%") "anything".data = true := by decide
example : likeMatch (likePattern "_") "a".data = true := by decide
example : likeMatch (likePattern "_") "".data = false := by decide

/-! ### LIKE-matching lemmas -/

lemma likeMatch_pct (p s : List Char) :
    likeMatch ('%' :: p) s = s.tails.any (fun t => likeMatch p t) := rfl

lemma likeMatch_pct_iff (p s : List Char) :
    likeMatch ('%' :: p) s = true ↔ ∃ t, t <:+ s ∧ likeMatch p t = true := by
  rw [likeMatch_pct, List.any_eq_true]
  constructor
  · rintro ⟨t, ht, hm⟩
    exact ⟨t, (List.mem_tails _ _).mp ht, hm⟩
  · rintro ⟨t, ht, hm⟩
    exact ⟨t, (List.mem_tails _ _).mpr ht, hm⟩

lemma likeMatch_pct_nil (s : List Char) : likeMatch ['%'] s = true :=
  (likeMatch_pct_iff [] s).mpr ⟨[], List.nil_suffix, rfl⟩

lemma likeMatch_pct_of {p s : List Char} (h : likeMatch p s = true) :
    likeMatch ('%' :: p) s = true :=
  (likeMatch_pct_iff p s).mpr ⟨s, List.suffix_refl s, h⟩

lemma likeMatch_pct_append {p s : List Char} (pre : List Char)
    (h : likeMatch ('%' :: p) s = true) :
    likeMatch ('%' :: p) (pre ++ s) = true := by
  obtain ⟨t, ht, hm⟩ := (likeMatch_pct_iff p s).mp h
  exact (likeMatch_pct_iff p (pre ++ s)).mpr
    ⟨t, ht.trans (List.suffix_append pre s), hm⟩

lemma likeMatch_charwise (k : List Char) :
    ∀ mid suf : List Char, mid.map asciiLower = k.map asciiLower →
      likeMatch (k ++ ['%']) (mid ++ suf) = true := by
  induction k with
  | nil =>
    intro mid suf h
    have hmid : mid = [] := by simpa using h
    subst hmid
    simpa using likeMatch_pct_nil suf
  | cons a k ih =>
    intro mid suf h
    cases mid with
    | nil => simp at h
    | cons c mid =>
      simp only [List.map_cons, List.cons.injEq] at h
      obtain ⟨hc, hrest⟩ := h
      by_cases ha : a = '%'
      · subst ha
        rw [List.cons_append, List.cons_append, likeMatch_pct_iff]
        exact ⟨mid ++ suf, ⟨[c], rfl⟩, ih mid suf hrest⟩
      · rw [List.cons_append, List.cons_append]
        simp only [likeMatch, if_neg ha, Bool.and_eq_true, Bool.or_eq_true,
          beq_iff_eq]
        exact ⟨Or.inr hc.symm, ih mid suf hrest⟩

lemma likeMatch_of_ciSubstring {k field : String}
    (h : ciSubstring (pyStrip k) field) :
    likeMatch (likePattern k) field.data = true := by
  obtain ⟨pre, mid, suf, hsplit, hmap⟩ := h
  have h1 : likeMatch (stripChars k.data ++ ['%']) (mid ++ suf) = true :=
    likeMatch_charwise _ mid suf hmap
  have h3 := likeMatch_pct_append pre (likeMatch_pct_of h1)
  rw [likePattern, hsplit, List.append_assoc]
  exact h3

/-- C1: for every keyword k and stored record r, if the trimmed k is,
ASCII-case-insensitively, a substring of r's title, language, tags, code or
(IFNULL-ed) notes, then r satisfies the search's WHERE clause, and r's
summary row is in the result of `db_search` whenever the match set is not
truncated by the 200-row LIMIT. An empty keyword is a substring of every
field, so it matches every record. -/
theorem search_finds_ci_substring (st : Store) (k : String) (r : Snippet)
    (hr : r ∈ st.rows)
    (hsub : ciSubstring (pyStrip k) r.title ∨ ciSubstring (pyStrip k) r.language ∨
            ciSubstring (pyStrip k) r.tags ∨ ciSubstring (pyStrip k) r.code ∨
            ciSubstring (pyStrip k) (ifnull r.notes)) :
    rowMatches (likePattern k) r = true ∧
      ((st.rows.filter (rowMatches (likePattern k))).length ≤ 200 →
        summaryOf r ∈ db_search st k) := by
  have hmatch : rowMatches (likePattern k) r = true := by
    rcases hsub with h | h | h | h | h <;>
      simp [rowMatches, likeMatch_of_ciSubstring h]
  refine ⟨hmatch, fun hlen => ?_⟩
  have hfil : r ∈ st.rows.filter (rowMatches (likePattern k)) :=
    List.mem_filter.mpr ⟨hr, hmatch⟩
  have hperm := List.perm_insertionSort updatedDesc
    (st.rows.filter (rowMatches (likePattern k)))
  have hsortmem : r ∈ List.insertionSort updatedDesc
      (st.rows.filter (rowMatches (likePattern k))) := hperm.mem_iff.mpr hfil
  have htake : (List.insertionSort updatedDesc
      (st.rows.filter (rowMatches (likePattern k)))).take 200 =
      List.insertionSort updatedDesc (st.rows.filter (rowMatches (likePattern k))) :=
    List.take_of_length_le (by rw [hperm.length_eq]; exact hlen)
  rw [db_search, htake]
  exact List.mem_map_of_mem summaryOf hsortmem

/-- C1 witness: the keyword "ALGO" case-insensitively occurs in the tags
"algo,search" of the sample record, which one-row store search then returns. -/
theorem search_finds_ci_substring_witness :
    summaryOf wRec ∈ db_search wStore "ALGO" :=
  (search_finds_ci_substring wStore "ALGO" wRec (by decide)
    (Or.inr (Or.inr (Or.inl
      ⟨[], "algo".data, ",search".data, by decide, by decide⟩)))).2 (by decide)

/-! ### Wildcard behaviour of the LIKE-based search -/

lemma rowMatches_pattern_all {pat : List Char}
    (hall : ∀ s : List Char, likeMatch pat s = true) (r : Snippet) :
    rowMatches pat r = true := by
  simp [rowMatches, hall]

/-- C10: the characters % and _ in a keyword act as LIKE wildcards, not
literals: searching for "%" returns exactly the rows of the empty search in
every store, and searching for "_" returns a record none of whose fields
contain an underscore. -/
theorem search_wildcard_not_literal :
    (∀ st : Store, db_search st "%" = db_search st "") ∧
    db_search wStore2 "_" = [summaryOf wRec2] ∧
    ('_' ∉ wRec2.title.data ∧ '_' ∉ wRec2.language.data ∧ '_' ∉ wRec2.tags.data ∧
     '_' ∉ wRec2.code.data ∧ '_' ∉ (ifnull wRec2.notes).data) := by
  refine ⟨fun st => ?_, by decide, by decide⟩
  have hpctpct : ∀ s : List Char, likeMatch ['%', '%'] s = true := fun s =>
    likeMatch_pct_of (likeMatch_pct_nil s)
  have h3 : ∀ s : List Char, likeMatch ['%', '%', '%'] s = true := fun s =>
    likeMatch_pct_of (hpctpct s)
  have hp1 : likePattern "%" = ['%', '%', '%'] := by decide
  have hp0 : likePattern "" = ['%', '%'] := by decide
  rw [db_search, db_search, hp1, hp0,
    List.filter_eq_self.mpr (fun r _ => rowMatches_pattern_all h3 r),
    List.filter_eq_self.mpr (fun r _ => rowMatches_pattern_all hpctpct r)]

/-! ### The empty search -/

/-- C6: `search("")` returns at most 200 rows; they are the summaries of a
list of records sorted by `updated_at` descending; and when fewer than 200
records exist, that list is exactly the full record set. -/
theorem search_empty_spec (st : Store) :
    ∃ sel : List Snippet,
      List.Sorted updatedDesc sel ∧
      db_search st "" = sel.map summaryOf ∧
      sel.length ≤ 200 ∧
      (st.rows.length < 200 → sel.Perm st.rows) := by
  have hp0 : likePattern "" = ['%', '%'] := by decide
  have hfil : st.rows.filter (rowMatches (likePattern "")) = st.rows :=
    List.filter_eq_self.mpr (fun r _ => by
      rw [hp0]
      exact rowMatches_pattern_all
        (fun s => likeMatch_pct_of (likeMatch_pct_nil s)) r)
  refine ⟨(List.insertionSort updatedDesc st.rows).take 200, ?_, ?_, ?_, ?_⟩
  · exact List.Pairwise.sublist (List.take_sublist 200 _)
      (List.sorted_insertionSort updatedDesc st.rows)
  · rw [db_search, hfil]
  · rw [List.length_take]
    exact min_le_left _ _
  · intro hlt
    have hlen : (List.insertionSort updatedDesc st.rows).length ≤ 200 := by
      rw [(List.perm_insertionSort updatedDesc st.rows).length_eq]
      omega
    rw [List.take_of_length_le hlen]
    exact List.perm_insertionSort updatedDesc st.rows

/-- C6 witness: on the concrete two-record store the empty search yields
both records, most recently updated first. -/
theorem search_empty_spec_witness :
    (∃ sel : List Snippet,
      List.Sorted updatedDesc sel ∧
      db_search wStore6 "" = sel.map summaryOf ∧
      sel.length ≤ 200 ∧
      (wStore6.rows.length < 200 → sel.Perm wStore6.rows)) ∧
    db_search wStore6 "" = [summaryOf wRecB, summaryOf wRecA] :=
  ⟨search_empty_spec wStore6, by decide⟩

/-! ### Store round-trip (insert then get) -/

/-- C2 counterexample: the Store does not normalise tags. Inserting the raw
tags "a, b , c" and reading the row back yields "a, b , c", not "a,b,c":
the claim as stated fails on `db_insert`/`db_get`. -/
theorem store_roundtrip_tags_cex :
    (db_get (db_insert ⟨[], 1⟩ 0 "T" "py" "a, b , c" "draft" "x" "").1
        (db_insert ⟨[], 1⟩ 0 "T" "py" "a, b , c" "draft" "x" "").2).map
      FullRow.tags = some "a, b , c" ∧
    ("a, b , c" : String) ≠ "a,b,c" := by decide

/-- C2 (amended): `get` after `insert` returns every field exactly as
passed, tags included — the Store stores its input verbatim; the
normalisation "a, b , c" → "a,b,c" is done by the Session's save before it
calls insert. Requires the AUTOINCREMENT invariant that every existing id
is below the counter. -/
theorem store_roundtrip_preserves_fields (st : Store) (now : Nat)
    (t l g s c n : String)
    (hinv : ∀ r ∈ st.rows, r.id < st.nextId) :
    db_get (db_insert st now t l g s c n).1 (db_insert st now t l g s c n).2 =
      some ⟨st.nextId, t, l, g, s, c, n⟩ := by
  have hnone : st.rows.find? (fun r => r.id == st.nextId) = none :=
    List.find?_eq_none.mpr (fun r hr => by
      simp [Nat.ne_of_lt (hinv r hr)])
  simp [db_get, db_insert, List.find?_append, hnone, ifnull]

/-- C2 witness: the amended round-trip evaluated on the empty store with
the raw tags "a, b , c". -/
theorem store_roundtrip_preserves_fields_witness :
    db_get (db_insert ⟨[], 1⟩ 0 "T" "py" "a, b , c" "draft" "x" "").1
        (db_insert ⟨[], 1⟩ 0 "T" "py" "a, b , c" "draft" "x" "").2 =
      some ⟨1, "T", "py", "a, b , c", "draft", "x", ""⟩ :=
  store_roundtrip_preserves_fields ⟨[], 1⟩ 0 "T" "py" "a, b , c" "draft" "x" ""
    (by decide)

/-! ### Save-time validation -/

/-- C3: the save shows the validation error exactly when the stripped
title, language, tags or code is empty (empty notes are allowed), and in
that case neither the store nor the session changes — no write occurs. -/
theorem save_validation_guard (sess : Session) (st : Store) (now : Nat) :
    ((save_snippet sess st now).validationError = true ↔
      (pyStrip sess.title_var = "" ∨ pyStrip sess.lang_var = "" ∨
       pyStrip sess.tags_var = "" ∨ pyStrip sess.code_text = "")) ∧
    ((save_snippet sess st now).validationError = true →
      (save_snippet sess st now).st = st ∧
      (save_snippet sess st now).sess = sess) := by
  by_cases h : pyStrip sess.title_var = "" ∨ pyStrip sess.lang_var = "" ∨
      pyStrip sess.tags_var = "" ∨ pyStrip sess.code_text = ""
  · simp [save_snippet, h]
  · cases hsel : sess.selected_id <;> simp [save_snippet, h, hsel]

/-- C3 witness: a session whose title strips to empty is rejected and
leaves the sample store and the session untouched. -/
theorem save_validation_guard_witness :
    (save_snippet wSessEmptyTitle wStore 3).validationError = true ∧
    (save_snippet wSessEmptyTitle wStore 3).st = wStore ∧
    (save_snippet wSessEmptyTitle wStore 3).sess = wSessEmptyTitle := by
  have h := save_validation_guard wSessEmptyTitle wStore 3
  have he : (save_snippet wSessEmptyTitle wStore 3).validationError = true :=
    h.1.mpr (Or.inl (by decide))
  exact ⟨he, h.2 he⟩

/-! ### Upsert decision of a successful save -/

/-- C4: when validation passes, a save from `{no selection}` calls
`db_insert` and the session adopts the id insert returned, while a save
from `{editing i}` calls `db_update` on that same id and the selection is
unchanged. -/
theorem save_upsert_transition (sess : Session) (st : Store) (now : Nat)
    (h : ¬(pyStrip sess.title_var = "" ∨ pyStrip sess.lang_var = "" ∨
           pyStrip sess.tags_var = "" ∨ pyStrip sess.code_text = "")) :
    (save_snippet sess st now).validationError = false ∧
    (sess.selected_id = none →
      (save_snippet sess st now).sess.selected_id =
        some (db_insert st now (pyStrip sess.title_var) (pyStrip sess.lang_var)
          (normalizeTags (pyStrip sess.tags_var)) (pyStrip sess.status_var)
          (pyStrip sess.code_text) (pyStrip sess.notes_text)).2 ∧
      (save_snippet sess st now).st =
        (db_insert st now (pyStrip sess.title_var) (pyStrip sess.lang_var)
          (normalizeTags (pyStrip sess.tags_var)) (pyStrip sess.status_var)
          (pyStrip sess.code_text) (pyStrip sess.notes_text)).1) ∧
    (∀ i, sess.selected_id = some i →
      (save_snippet sess st now).sess.selected_id = some i ∧
      (save_snippet sess st now).st =
        db_update st now i (pyStrip sess.title_var) (pyStrip sess.lang_var)
          (normalizeTags (pyStrip sess.tags_var)) (pyStrip sess.status_var)
          (pyStrip sess.code_text) (pyStrip sess.notes_text)) := by
  cases hsel : sess.selected_id <;> simp [save_snippet, h, hsel]

/-- C4 witness: the valid new-snippet session saves into the one-record
store, the insert id 2 is adopted and no validation error is shown. -/
theorem save_upsert_transition_witness :
    (save_snippet wSessOk wStore 4).sess.selected_id = some 2 ∧
    (save_snippet wSessOk wStore 4).validationError = false := by
  have h := save_upsert_transition wSessOk wStore 4 (by decide)
  exact ⟨(h.2.1 rfl).1.trans (by decide), h.1⟩

/-! ### Update frame conditions -/

/-- C5: `db_update` replaces exactly the editable fields of the row with
the given id and stamps `updated_at` to the current time; `id` and
`created_at` survive, other rows and the id counter are untouched, the row
count is unchanged, and under a monotone clock the new `updated_at` is at
least the old one. -/
theorem db_update_frame (st : Store) (now : Nat) (i : Nat)
    (t l g s c n : String) (r : Snippet) (hr : r ∈ st.rows)
    (hclock : r.updated_at ≤ now) :
    (db_update st now i t l g s c n).rows.length = st.rows.length ∧
    (db_update st now i t l g s c n).nextId = st.nextId ∧
    (r.id ≠ i → r ∈ (db_update st now i t l g s c n).rows) ∧
    (r.id = i → ∃ r' ∈ (db_update st now i t l g s c n).rows,
      r'.id = r.id ∧ r'.title = t ∧ r'.language = l ∧ r'.tags = g ∧
      r'.status = s ∧ r'.code = c ∧ r'.notes = some n ∧
      r'.created_at = r.created_at ∧ r'.updated_at = now ∧
      r.updated_at ≤ r'.updated_at) := by
  refine ⟨by simp [db_update], rfl, fun hne => ?_, fun heq => ?_⟩
  · have hm := List.mem_map_of_mem (fun x : Snippet =>
      if x.id = i then
        { x with title := t, language := l, tags := g, status := s, code := c,
                 notes := some n, updated_at := now }
      else x) hr
    simp only [if_neg hne] at hm
    exact hm
  · refine ⟨{ r with title := t, language := l, tags := g, status := s,
                     code := c, notes := some n, updated_at := now }, ?_,
      rfl, rfl, rfl, rfl, rfl, rfl, rfl, rfl, rfl, hclock⟩
    have hm := List.mem_map_of_mem (fun x : Snippet =>
      if x.id = i then
        { x with title := t, language := l, tags := g, status := s, code := c,
                 notes := some n, updated_at := now }
      else x) hr
    simp only [if_pos heq] at hm
    exact hm

/-- C5 witness: updating the single record of the sample store at time 7. -/
theorem db_update_frame_witness :
    (db_update wStore5 7 1 "T2" "rs" "g2" "prod" "c2" "n2").rows.length =
      wStore5.rows.length ∧
    (db_update wStore5 7 1 "T2" "rs" "g2" "prod" "c2" "n2").nextId =
      wStore5.nextId ∧
    (wRecA.id ≠ 1 →
      wRecA ∈ (db_update wStore5 7 1 "T2" "rs" "g2" "prod" "c2" "n2").rows) ∧
    (wRecA.id = 1 →
      ∃ r' ∈ (db_update wStore5 7 1 "T2" "rs" "g2" "prod" "c2" "n2").rows,
        r'.id = wRecA.id ∧ r'.title = "T2" ∧ r'.language = "rs" ∧
        r'.tags = "g2" ∧ r'.status = "prod" ∧ r'.code = "c2" ∧
        r'.notes = some "n2" ∧ r'.created_at = wRecA.created_at ∧
        r'.updated_at = 7 ∧ wRecA.updated_at ≤ r'.updated_at) :=
  db_update_frame wStore5 7 1 "T2" "rs" "g2" "prod" "c2" "n2" wRecA
    (by decide) (by decide)

/-! ### Selection of a missing id -/

/-- C8: when no stored record has the requested id, `db_get` resolves to
nothing and `on_select` fails without producing a loaded session — the
handler dies on the missing row before writing any working value. -/
theorem select_missing_fails (sess : Session) (st : Store) (i : Nat)
    (h : ∀ r ∈ st.rows, r.id ≠ i) :
    db_get st i = none ∧ on_select sess st i = none := by
  have hg : db_get st i = none := by
    rw [db_get, List.find?_eq_none.mpr (fun r hr => by simp [h r hr])]
    rfl
  exact ⟨hg, by simp [on_select, hg]⟩

/-- C8 witness: selecting id 99 in the one-record store (id 1) fails. -/
theorem select_missing_fails_witness :
    db_get wStore 99 = none ∧ on_select wSess9 wStore 99 = none :=
  select_missing_fails wSess9 wStore 99 (by decide)

/-! ### Resetting the editor -/

/-- C9 counterexample: `new_snippet` does not make every working field
empty — the language resets to "py" and the status to "draft". -/
theorem new_snippet_clears_all_cex :
    (new_snippet wSess9).lang_var = "py" ∧ ("py" : String) ≠ "" ∧
    (new_snippet wSess9).status_var = "draft" ∧ ("draft" : String) ≠ "" := by
  decide

/-- C9 (amended): from any state, `new_snippet` drops the selection and
resets the fields: title, tags, code and notes become empty, language
becomes "py" and status becomes "draft". -/
theorem new_snippet_resets (s : Session) :
    (new_snippet s).selected_id = none ∧ (new_snippet s).title_var = "" ∧
    (new_snippet s).lang_var = "py" ∧ (new_snippet s).tags_var = "" ∧
    (new_snippet s).status_var = "draft" ∧ (new_snippet s).code_text = "" ∧
    (new_snippet s).notes_text = "" :=
  ⟨rfl, rfl, rfl, rfl, rfl, rfl, rfl⟩

/-! ### Idempotence of tag normalisation -/

lemma head?_dropWhile_false :
    ∀ (l : List Char) (c : Char),
      (l.dropWhile pyIsSpace).head? = some c → pyIsSpace c = false := by
  intro l
  induction l with
  | nil => intro c h; simp at h
  | cons a t ih =>
    intro c h
    by_cases ha : pyIsSpace a = true
    · rw [List.dropWhile_cons, if_pos ha] at h
      exact ih c h
    · rw [List.dropWhile_cons, if_neg ha] at h
      simp only [List.head?_cons, Option.some.injEq] at h
      subst h
      simpa using ha

lemma dropWhile_eq_self_of_head? (l : List Char)
    (h : ∀ c, l.head? = some c → pyIsSpace c = false) :
    l.dropWhile pyIsSpace = l := by
  cases l with
  | nil => rfl
  | cons a t =>
    rw [List.dropWhile_cons, if_neg (by simp [h a rfl])]

lemma stripChars_subset (l : List Char) : stripChars l ⊆ l := by
  intro c hc
  rw [stripChars, List.mem_reverse] at hc
  have h1 := (List.dropWhile_suffix pyIsSpace).subset hc
  rw [List.mem_reverse] at h1
  exact (List.dropWhile_suffix pyIsSpace).subset h1

lemma stripChars_idem (l : List Char) :
    stripChars (stripChars l) = stripChars l := by
  rcases hw : (l.dropWhile pyIsSpace).reverse.dropWhile pyIsSpace with _ | ⟨w0, w'⟩
  · have h1 : stripChars l = [] := by
      simp only [stripChars]
      rw [hw]
      rfl
    rw [h1]
    rfl
  · have h1 : stripChars l = (w0 :: w').reverse := by
      simp only [stripChars]
      rw [hw]
    have hw_head : pyIsSpace w0 = false :=
      head?_dropWhile_false (l.dropWhile pyIsSpace).reverse w0 (by rw [hw]; rfl)
    have hsuf : w0 :: w' <:+ (l.dropWhile pyIsSpace).reverse := by
      rw [← hw]
      exact List.dropWhile_suffix _
    have hpre : (w0 :: w').reverse <+: l.dropWhile pyIsSpace := by
      apply List.reverse_suffix.mp
      rw [List.reverse_reverse]
      exact hsuf
    obtain ⟨t, ht⟩ := hpre
    have hhead_eq : (l.dropWhile pyIsSpace).head? = ((w0 :: w').reverse).head? := by
      rw [← ht, List.head?_append]
      rcases hrev : (w0 :: w').reverse with _ | ⟨d, ws⟩
      · exact absurd hrev (by simp)
      · rfl
    have hstep1 : ((w0 :: w').reverse).dropWhile pyIsSpace = (w0 :: w').reverse := by
      apply dropWhile_eq_self_of_head?
      intro c hc
      apply head?_dropWhile_false l c
      rw [hhead_eq]
      exact hc
    rw [h1]
    simp only [stripChars]
    rw [hstep1, List.reverse_reverse,
      dropWhile_eq_self_of_head? (w0 :: w')
        (fun c hc => by
          simp only [List.head?_cons, Option.some.injEq] at hc
          subst hc
          exact hw_head)]

lemma splitComma_ne_nil (l : List Char) : splitComma l ≠ [] := by
  cases l with
  | nil => simp [splitComma]
  | cons c rest =>
    by_cases h : c = ','
    · simp [splitComma, h]
    · simp [splitComma, h]

lemma headI_cons_tail {α : Type} [Inhabited α] (l : List α) (h : l ≠ []) :
    l.headI :: l.tail = l := by
  cases l with
  | nil => exact absurd rfl h
  | cons a t => rfl

lemma headI_mem_of_ne_nil {α : Type} [Inhabited α] (l : List α) (h : l ≠ []) :
    l.headI ∈ l := by
  cases l with
  | nil => exact absurd rfl h
  | cons a t => simp [List.headI]

lemma mem_splitComma_no_comma (l : List Char) :
    ∀ p ∈ splitComma l, ',' ∉ p := by
  induction l with
  | nil =>
    intro p hp
    simp [splitComma] at hp
    subst hp
    simp
  | cons c rest ih =>
    intro p hp
    by_cases h : c = ','
    · simp only [splitComma, if_pos h, List.mem_cons] at hp
      rcases hp with rfl | hp
      · simp
      · exact ih p hp
    · simp only [splitComma, if_neg h, List.mem_cons] at hp
      rcases hp with rfl | hp
      · intro hmem
        rcases List.mem_cons.mp hmem with hc | hmem'
        · exact h hc.symm
        · exact ih _ (headI_mem_of_ne_nil _ (splitComma_ne_nil rest)) hmem'
      · exact ih _ (List.mem_of_mem_tail hp)

lemma splitComma_append_no_comma (p s : List Char) (hp : ',' ∉ p) :
    splitComma (p ++ s) = (p ++ (splitComma s).headI) :: (splitComma s).tail := by
  induction p with
  | nil =>
    simp only [List.nil_append]
    exact (headI_cons_tail _ (splitComma_ne_nil s)).symm
  | cons a p' ih =>
    have ha : ¬(a = ',') := fun hh => hp (hh ▸ List.mem_cons_self a p')
    have hp' : ',' ∉ p' := fun hh => hp (List.mem_cons_of_mem a hh)
    rw [List.cons_append]
    simp only [splitComma, if_neg ha]
    rw [ih hp']
    simp [List.headI]

lemma splitComma_joinComma :
    ∀ parts : List (List Char), (∀ p ∈ parts, ',' ∉ p) → parts ≠ [] →
      splitComma (joinComma parts) = parts := by
  intro parts
  induction parts with
  | nil => intro _ hne; exact absurd rfl hne
  | cons p rest ih =>
    intro h _
    cases rest with
    | nil =>
      show splitComma (joinComma [p]) = [p]
      have hsp := splitComma_append_no_comma p [] (h p (by simp))
      rw [List.append_nil] at hsp
      simpa [joinComma, splitComma, List.headI] using hsp
    | cons q rest' =>
      show splitComma (p ++ ',' :: joinComma (q :: rest')) = p :: q :: rest'
      rw [splitComma_append_no_comma p _ (h p (by simp))]
      have hcomma : splitComma (',' :: joinComma (q :: rest')) =
          [] :: splitComma (joinComma (q :: rest')) := by
        simp [splitComma]
      rw [hcomma]
      simp only [List.headI, List.tail_cons, List.append_nil]
      rw [ih (fun x hx => h x (List.mem_cons_of_mem p hx)) (List.cons_ne_nil q rest')]

lemma normTagsChars_idem (l : List Char) :
    normTagsChars (normTagsChars l) = normTagsChars l := by
  have hPmem : ∀ p ∈ ((splitComma l).map stripChars).filter (fun p => p ≠ []),
      p ≠ [] ∧ ',' ∉ p ∧ stripChars p = p := by
    intro p hp
    obtain ⟨hmem, hne⟩ := List.mem_filter.mp hp
    obtain ⟨q, hq, rfl⟩ := List.mem_map.mp hmem
    refine ⟨by simpa using hne, ?_, stripChars_idem q⟩
    intro hc
    exact mem_splitComma_no_comma l q hq (stripChars_subset q hc)
  rcases hPe : ((splitComma l).map stripChars).filter (fun p => p ≠ []) with _ | ⟨p0, P'⟩
  · have h1 : normTagsChars l = [] := by
      rw [normTagsChars, hPe]
      rfl
    rw [h1]
    rfl
  · rw [hPe] at hPmem
    have h1 : normTagsChars l = joinComma (p0 :: P') := by
      rw [normTagsChars, hPe]
    rw [h1, normTagsChars,
      splitComma_joinComma (p0 :: P') (fun p hp => (hPmem p hp).2.1)
        (List.cons_ne_nil p0 P')]
    have hmap : (p0 :: P').map stripChars = p0 :: P' := by
      conv_rhs => rw [← List.map_id (p0 :: P')]
      exact List.map_congr_left (fun p hp => (hPmem p hp).2.2)
    have hfil : (p0 :: P').filter (fun p => p ≠ []) = p0 :: P' :=
      List.filter_eq_self.mpr (fun p hp => by simpa using (hPmem p hp).1)
    rw [hmap, hfil]

/-- C7: the tag normalisation of `save_snippet` — split on comma, strip
each segment, drop empty segments, rejoin with single commas — is
idempotent on every input string. -/
theorem normalizeTags_idem (s : String) :
    normalizeTags (normalizeTags s) = normalizeTags s := by
  show String.mk (normTagsChars (normTagsChars s.data)) = String.mk (normTagsChars s.data)
  rw [normTagsChars_idem]
